import Mathlib

/-!
# SainyaSecure — verification of the blockchain / P2P messaging core

Shallow embedding of the repository's Python modules:

* `backend/utils/military_crypto.py` — `MilitaryBlockchain` (merkle trees,
  block hashing, proof-of-work mining, chain validation);
* `backend/p2p_comm/battlefield_network.py` — `LocalLedger`,
  `P2PNetworkSimulator` (per-node ledgers, message routing, Lamport clock);
* `demo/battlefield_server.py` — `BattlefieldCommunicationServer`
  (demo nodes, send handling, P2P route computation, synchronization).

Python dicts are embedded as association lists of `String × JVal` (JSON
values); `json.dumps(..., sort_keys=True)` is embedded as recursive key
sorting followed by serialization with Python's default `", "` / `": "`
separators.  `hashlib.sha256` is embedded as an executable SHA-256 over
byte lists (`Nat` bytes, all arithmetic mod `2^32` made explicit).
Timestamps are modelled as naturals (Python uses floats from `time.time()`;
no property below depends on the textual rendering of a timestamp, and all
concrete witnesses use integral timestamps).  String bytes are code points,
which coincides with Python's UTF-8 encoding on the ASCII data used here.
-/

set_option maxRecDepth 200000

namespace SainyaSecure

/-! ## SHA-256 (hashlib.sha256), executable over byte lists -/

def M32 : Nat := 4294967296

def rotr32 (x n : Nat) : Nat := ((x >>> n) ||| (x <<< (32 - n))) % M32

def bsig0 (x : Nat) : Nat := (rotr32 x 2) ^^^ (rotr32 x 13) ^^^ (rotr32 x 22)

def bsig1 (x : Nat) : Nat := (rotr32 x 6) ^^^ (rotr32 x 11) ^^^ (rotr32 x 25)

def ssig0 (x : Nat) : Nat := (rotr32 x 7) ^^^ (rotr32 x 18) ^^^ (x >>> 3)

def ssig1 (x : Nat) : Nat := (rotr32 x 17) ^^^ (rotr32 x 19) ^^^ (x >>> 10)

def chFn (e f g : Nat) : Nat := (e &&& f) ^^^ ((e ^^^ (M32 - 1)) &&& g)

def majFn (a b c : Nat) : Nat := (a &&& b) ^^^ (a &&& c) ^^^ (b &&& c)

/-- The 64 SHA-256 round constants, written in decimal. -/
def shaK : List Nat :=
  [1116352408, 1899447441, 3049323471, 3921009573, 961987163,
   1508970993, 2453635748, 2870763221, 3624381080, 310598401,
   607225278, 1426881987, 1925078388, 2162078206, 2614888103,
   3248222580, 3835390401, 4022224774, 264347078, 604807628,
   770255983, 1249150122, 1555081692, 1996064986, 2554220882,
   2821834349, 2952996808, 3210313671, 3336571891, 3584528711,
   113926993, 338241895, 666307205, 773529912, 1294757372,
   1396182291, 1695183700, 1986661051, 2177026350, 2456956037,
   2730485921, 2820302411, 3259730800, 3345764771, 3516065817,
   3600352804, 4094571909, 275423344, 430227734, 506948616,
   659060556, 883997877, 958139571, 1322822218, 1537002063,
   1747873779, 1955562222, 2024104815, 2227730452, 2361852424,
   2428436474, 2756734187, 3204031479, 3329325298]

/-- The eight SHA-256 initial hash values, written in decimal. -/
def shaH0 : List Nat :=
  [1779033703, 3144134277, 1013904242, 2773480762,
   1359893119, 2600822924, 528734635, 1541459225]

/-- Merkle–Damgård padding: `0x80`, zeros to 56 mod 64, 8-byte big-endian
bit length. -/
def padBytes (msg : List Nat) : List Nat :=
  let L := msg.length
  let z := (119 - L % 64) % 64
  let bl := 8 * L
  msg ++ 0x80 :: List.replicate z 0 ++
    [(bl >>> 56) % 256, (bl >>> 48) % 256, (bl >>> 40) % 256, (bl >>> 32) % 256,
     (bl >>> 24) % 256, (bl >>> 16) % 256, (bl >>> 8) % 256, bl % 256]

/-- Split into 64-byte chunks; the fuel (first argument) only bounds the
recursion and is always adequate at `l.length`, since each step consumes at
least one byte. -/
def chunk64Go : Nat → List Nat → List (List Nat)
  | _, [] => []
  | 0, _ :: _ => []
  | f + 1, b :: rest => (b :: rest).take 64 :: chunk64Go f ((b :: rest).drop 64)

def chunk64 (l : List Nat) : List (List Nat) := chunk64Go l.length l

def bytesToWords : List Nat → List Nat
  | b0 :: b1 :: b2 :: b3 :: rest =>
    (((b0 * 256 + b1) * 256 + b2) * 256 + b3) :: bytesToWords rest
  | _ => []

/-- Extend the 16-word message schedule by `n` further words. -/
def schedExtend (w : List Nat) : Nat → List Nat
  | 0 => w
  | n + 1 =>
    let L := w.length
    let nw := (ssig1 (w.getD (L - 2) 0) + w.getD (L - 7) 0 +
               ssig0 (w.getD (L - 15) 0) + w.getD (L - 16) 0) % M32
    schedExtend (w ++ [nw]) n

structure Regs where
  ra : Nat
  rb : Nat
  rc : Nat
  rd : Nat
  re : Nat
  rf : Nat
  rg : Nat
  rh : Nat

def shaRound (r : Regs) (kw : Nat × Nat) : Regs :=
  let t1 := (r.rh + bsig1 r.re + chFn r.re r.rf r.rg + kw.1 + kw.2) % M32
  let t2 := (bsig0 r.ra + majFn r.ra r.rb r.rc) % M32
  ⟨(t1 + t2) % M32, r.ra, r.rb, r.rc, (r.rd + t1) % M32, r.re, r.rf, r.rg⟩

def compressChunk (hs : List Nat) (chunk : List Nat) : List Nat :=
  let w := schedExtend (bytesToWords chunk) 48
  let f := (shaK.zip w).foldl shaRound
    ⟨hs.getD 0 0, hs.getD 1 0, hs.getD 2 0, hs.getD 3 0,
     hs.getD 4 0, hs.getD 5 0, hs.getD 6 0, hs.getD 7 0⟩
  [(hs.getD 0 0 + f.ra) % M32, (hs.getD 1 0 + f.rb) % M32,
   (hs.getD 2 0 + f.rc) % M32, (hs.getD 3 0 + f.rd) % M32,
   (hs.getD 4 0 + f.re) % M32, (hs.getD 5 0 + f.rf) % M32,
   (hs.getD 6 0 + f.rg) % M32, (hs.getD 7 0 + f.rh) % M32]

def sha256Words (msg : List Nat) : List Nat :=
  (chunk64 (padBytes msg)).foldl compressChunk shaH0

def hexDigitChar (n : Nat) : Char :=
  Char.ofNat (if n < 10 then 48 + n else 87 + n)

def wordHexChars (x : Nat) : List Char :=
  [28, 24, 20, 16, 12, 8, 4, 0].map (fun s => hexDigitChar ((x >>> s) % 16))

/-- `hashlib.sha256(bytes).hexdigest()`. -/
def sha256hexBytes (msg : List Nat) : String :=
  ⟨((sha256Words msg).map wordHexChars).flatten⟩

/-- UTF-8 bytes of a string; equals the list of code points on ASCII data. -/
def strBytes (s : String) : List Nat := s.data.map Char.toNat

/-- `hashlib.sha256(s.encode()).hexdigest()`. -/
def sha256hexStr (s : String) : String := sha256hexBytes (strBytes s)

/-! ## JSON values and `json.dumps(..., sort_keys=True)`

Python dicts become association lists (`obj`); the value grammar covers
everything the program stores in blocks and messages: strings, ints
(naturals), booleans, `None`, and nested dicts. -/

inductive JVal where
  | str (s : String)
  | nat (n : Nat)
  | bool (b : Bool)
  | null
  | obj (kvs : List (String × JVal))

mutual

/-- Structural equality on JSON values; Python `==` on the embedded data. -/
def jeq : JVal → JVal → Bool
  | .str a, .str b => a == b
  | .nat a, .nat b => a == b
  | .bool a, .bool b => a == b
  | .null, .null => true
  | .obj a, .obj b => jeqKVs a b
  | _, _ => false

def jeqKVs : List (String × JVal) → List (String × JVal) → Bool
  | [], [] => true
  | (k, v) :: r, (k', v') :: r' => k == k' && jeq v v' && jeqKVs r r'
  | _, _ => false

end

mutual

theorem jeq_iff : ∀ a b, jeq a b = true ↔ a = b
  | .str _, b => by cases b <;> simp [jeq]
  | .nat _, b => by cases b <;> simp [jeq]
  | .bool _, b => by cases b <;> simp [jeq]
  | .null, b => by cases b <;> simp [jeq]
  | .obj kvs, .str _ => by simp [jeq]
  | .obj kvs, .nat _ => by simp [jeq]
  | .obj kvs, .bool _ => by simp [jeq]
  | .obj kvs, .null => by simp [jeq]
  | .obj kvs, .obj kvs' => by simp [jeq, jeqKVs_iff kvs kvs']

theorem jeqKVs_iff : ∀ a b, jeqKVs a b = true ↔ a = b
  | [], [] => by simp [jeqKVs]
  | [], _ :: _ => by simp [jeqKVs]
  | _ :: _, [] => by simp [jeqKVs]
  | (k, v) :: r, (k', v') :: r' => by
    simp [jeqKVs, jeq_iff v v', jeqKVs_iff r r', Prod.ext_iff, and_assoc]

end

instance : DecidableEq JVal := fun a b => decidable_of_iff _ (jeq_iff a b)

/-- Python `json` string escaping (ASCII data; `ensure_ascii` escapes beyond
ASCII, which none of the embedded data uses). -/
def escChar (c : Char) : List Char :=
  if c = '"' then ['\\', '"']
  else if c = '\\' then ['\\', '\\']
  else if c = '\n' then ['\\', 'n']
  else if c = '\t' then ['\\', 't']
  else if c = '\r' then ['\\', 'r']
  else if c.toNat = 8 then ['\\', 'b']
  else if c.toNat = 12 then ['\\', 'f']
  else if c.toNat < 32 then
    ['\\', 'u', '0', '0', hexDigitChar (c.toNat / 16), hexDigitChar (c.toNat % 16)]
  else [c]

def dumpQ (s : String) : List Char := '"' :: (s.data.map escChar).flatten ++ ['"']

/-- Decimal digits of a natural; fuel `n + 1` always covers the digit
count. -/
def natCharsGo : Nat → Nat → List Char
  | 0, _ => []
  | f + 1, n =>
    if n < 10 then [hexDigitChar n]
    else natCharsGo f (n / 10) ++ [hexDigitChar (n % 10)]

def natChars (n : Nat) : List Char := natCharsGo (n + 1) n

mutual

/-- Serialize a JSON value with Python's default separators `", "`, `": "`.
Keys are emitted in list order; `jsonDumps` sorts them first. -/
def dumpJ : JVal → List Char
  | .str s => dumpQ s
  | .nat n => natChars n
  | .bool b => if b then "true".data else "false".data
  | .null => "null".data
  | .obj kvs => Char.ofNat 123 :: dumpKVs kvs ++ [Char.ofNat 125]

def dumpKVs : List (String × JVal) → List Char
  | [] => []
  | [(k, v)] => dumpQ k ++ ':' :: ' ' :: dumpJ v
  | (k, v) :: p :: rest =>
    dumpQ k ++ ':' :: ' ' :: dumpJ v ++ ',' :: ' ' :: dumpKVs (p :: rest)

end

/-- Python string `<`: lexicographic by code point. -/
def strLtB : List Char → List Char → Bool
  | [], [] => false
  | [], _ :: _ => true
  | _ :: _, [] => false
  | a :: as, b :: bs =>
    if a.toNat < b.toNat then true
    else if b.toNat < a.toNat then false
    else strLtB as bs

def keyLt (a b : String) : Bool := strLtB a.data b.data

/-- Insertion into a key-sorted association list (Python sorts keys by code
point order). -/
def insKV (p : String × JVal) : List (String × JVal) → List (String × JVal)
  | [] => [p]
  | q :: qs => if keyLt p.1 q.1 then p :: q :: qs else q :: insKV p qs

def sortKVs : List (String × JVal) → List (String × JVal)
  | [] => []
  | p :: ps => insKV p (sortKVs ps)

mutual

/-- Recursively sort every object's keys, as `sort_keys=True` does at each
nesting level. -/
def sortAll : JVal → JVal
  | .obj kvs => .obj (sortKVs (sortVals kvs))
  | .str s => .str s
  | .nat n => .nat n
  | .bool b => .bool b
  | .null => .null

def sortVals : List (String × JVal) → List (String × JVal)
  | [] => []
  | (k, v) :: rest => (k, sortAll v) :: sortVals rest

end

/-- `json.dumps(v, sort_keys=True)`. -/
def jsonDumps (v : JVal) : String := ⟨dumpJ (sortAll v)⟩

/-! ## Python dict primitives over association lists -/

/-- A Python dict as the program builds blocks: insertion-ordered unique
keys. -/
abbrev PyDict := List (String × JVal)

/-- `d.get(k)` / `d.get(k, None)`. -/
def jlookup (b : PyDict) (k : String) : Option JVal :=
  match b with
  | [] => none
  | (k', v) :: rest => if k' = k then some v else jlookup rest k

/-- `d[k] = v`: replace in place if present, else append. -/
def setKey (b : PyDict) (k : String) (v : JVal) : PyDict :=
  match b with
  | [] => [(k, v)]
  | (k', v') :: rest => if k' = k then (k, v) :: rest else (k', v') :: setKey rest k v

/-- `d.pop(k, None)` on a copy: the dict without key `k`. -/
def eraseKey (b : PyDict) (k : String) : PyDict :=
  b.filter (fun p => p.1 ≠ k)

/-! ## `MilitaryBlockchain` (backend/utils/military_crypto.py) -/

/-- A block as the program builds it: a Python dict. -/
abbrev Block := PyDict

/-- `calculate_block_hash`: SHA-256 of the sort-keys JSON serialization. -/
def calculate_block_hash (block_data : Block) : String :=
  sha256hexStr (jsonDumps (.obj block_data))

/-- One level of `create_merkle_tree`'s bottom-up loop:
`for i in range(0, len(leaves), 2)`, combining `leaves[i] + leaves[i+1]`,
duplicating a lone trailing leaf. -/
def pairLevel : List String → List String
  | [] => []
  | [x] => [sha256hexStr (x ++ x)]
  | x :: y :: rest => sha256hexStr (x ++ y) :: pairLevel rest

theorem pairLevel_length : ∀ ls : List String, (pairLevel ls).length = (ls.length + 1) / 2
  | [] => by simp [pairLevel]
  | [_] => by simp [pairLevel]
  | _ :: _ :: rest => by
    simp [pairLevel, pairLevel_length rest]
    omega

/-- `while len(leaves) > 1: leaves = next_level`, with fuel; each pass
shrinks a multi-element level, so fuel `ls.length` always reaches the
fixed point. -/
def merkleLoopGo : Nat → List String → List String
  | 0, ls => ls
  | f + 1, ls => if 1 < ls.length then merkleLoopGo f (pairLevel ls) else ls

def merkleLoop (ls : List String) : List String := merkleLoopGo ls.length ls

/-- `create_merkle_tree(transactions)`. -/
def create_merkle_tree (transactions : List Block) : String :=
  if transactions = [] then sha256hexBytes []
  else
    let leaves := transactions.map (fun tx => sha256hexStr (jsonDumps (.obj tx)))
    (merkleLoop leaves).headD (sha256hexBytes [])

/-- `"0" * difficulty`. -/
def zerosStr (d : Nat) : String := ⟨List.replicate d '0'⟩

/-- `s.startswith(p)`. -/
def pyStarts (s p : String) : Bool := p.data.isPrefixOf s.data

/-- The `while True` mining loop of `mine_block`, starting at `nonce`, made
total with fuel: `block_data['nonce'] = nonce`, hash, accept on
`block_hash.startswith(target)`, else `nonce += 1`. -/
def mineAux (block_data : Block) (target : String) : Nat → Nat → Option (String × Nat)
  | _, 0 => none
  | nonce, fuel + 1 =>
    let h := calculate_block_hash (setKey block_data "nonce" (.nat nonce))
    if pyStarts h target then some (h, nonce)
    else mineAux block_data target (nonce + 1) fuel

/-- `mine_block(block_data, difficulty)`, fueled. -/
def mine_block (block_data : Block) (difficulty : Nat) (fuel : Nat) :
    Option (String × Nat) :=
  mineAux block_data (zerosStr difficulty) 0 fuel

/-- `validate_block_hash(block)`: stored `block_hash` equals the hash
recomputed over the block without its `block_hash` field (`None` when the
field is absent never equals a hex string, as in Python). -/
def validate_block_hash (block : Block) : Bool :=
  jlookup block "block_hash" ==
    some (.str (calculate_block_hash (eraseKey block "block_hash")))

/-- The `for i in range(1, len(blocks))` linkage-and-hash loop of
`validate_block_chain`, with `prev` the block at `i - 1`. -/
def chainRest (prev : Block) : List Block → Bool
  | [] => true
  | cur :: rest =>
    (jlookup cur "previous_hash" == jlookup prev "block_hash") &&
    validate_block_hash cur && chainRest cur rest

/-- `validate_block_chain(blocks)`. -/
def validate_block_chain : List Block → Bool
  | [] => true
  | b0 :: rest => validate_block_hash b0 && chainRest b0 rest

/-! ### Spec-side definitions for chain validation and merkle roots -/

/-- The claim's adjacent block-number condition:
`cur.block_number == prev.block_number + 1`. -/
def blockNumSucc (prev cur : Block) : Bool :=
  match jlookup prev "block_number", jlookup cur "block_number" with
  | some (.nat a), some (.nat b) => b == a + 1
  | _, _ => false

/-- Adjacent-pair conditions as the claim states them: hash link and
block-number increment. -/
def adjClaimOk : List Block → Bool
  | [] => true
  | [_] => true
  | p :: c :: rest =>
    (jlookup c "previous_hash" == jlookup p "block_hash") &&
    blockNumSucc p c && adjClaimOk (c :: rest)

/-- Chain acceptance per the words of the chain-validation claim: adjacent
hash links and block-number increments, valid stored hashes, and a genesis
with `previous_hash = "0" * 64` and `block_number = 0`; the empty chain
accepted.  (Stated from the spec, to compare against
`validate_block_chain`.) -/
def chainClaimedOk : List Block → Bool
  | [] => true
  | b0 :: rest =>
    (b0 :: rest).all validate_block_hash && adjClaimOk (b0 :: rest) &&
    (jlookup b0 "previous_hash" == some (.str (zerosStr 64))) &&
    (jlookup b0 "block_number" == some (.nat 0))

/-- Leaf hash of one transaction: canonical (sorted-keys) JSON, hashed. -/
def txLeaf (tx : Block) : String := sha256hexStr (jsonDumps (.obj tx))

/-- One pairing pass as the spec describes it: concatenate `left || right`
and hash, duplicating an odd trailing leaf. -/
def specPair : List String → List String
  | [] => []
  | [x] => [sha256hexStr (x ++ x)]
  | x :: y :: rest => sha256hexStr (x ++ y) :: specPair rest

theorem specPair_length : ∀ ls : List String, (specPair ls).length = (ls.length + 1) / 2
  | [] => by simp [specPair]
  | [_] => by simp [specPair]
  | _ :: _ :: rest => by
    simp [specPair, specPair_length rest]
    omega

/-- Recurse the pairing until a single root remains (spec side); fuel
`ls.length` always suffices since a pairing pass shrinks a multi-element
list. -/
def reduceSpecGo : Nat → List String → String
  | _, [] => sha256hexStr ""
  | _, [x] => x
  | 0, x :: _ :: _ => x
  | f + 1, x :: y :: rest => reduceSpecGo f (specPair (x :: y :: rest))

def reduceSpec (ls : List String) : String := reduceSpecGo ls.length ls

/-- The merkle root as the spec sentence describes it: `Hash("")` on empty
input, else leaves from canonically serialized transactions reduced
pairwise to a single root. -/
def merkleRootSpec (transactions : List Block) : String :=
  if transactions = [] then sha256hexStr ""
  else reduceSpec (transactions.map txLeaf)

/-! ## `LocalLedger` (backend/p2p_comm/battlefield_network.py)

`P2PMessage` carries exactly the dataclass fields; randomly generated
fields of the Python code (uuid, AES payload, RSA signature) are inputs of
the embedding. -/

structure P2PMessage where
  message_id : String
  sender_id : String
  receiver_id : Option String
  message_type : String
  content : String
  timestamp : Nat
  lamport_clock : Nat
  vector_clock : List (String × Nat)
  encrypted_payload : String
  digital_signature : String
  hop_count : Nat
  max_hops : Nat
deriving DecidableEq

/-- `P2PMessage.to_dict`: `asdict` in dataclass field order, with the
`message_type` enum replaced by its value. -/
def msgToDict (m : P2PMessage) : PyDict :=
  [("message_id", .str m.message_id),
   ("sender_id", .str m.sender_id),
   ("receiver_id", match m.receiver_id with | some r => .str r | none => .null),
   ("message_type", .str m.message_type),
   ("content", .str m.content),
   ("timestamp", .nat m.timestamp),
   ("lamport_clock", .nat m.lamport_clock),
   ("vector_clock", .obj (m.vector_clock.map (fun p => (p.1, JVal.nat p.2)))),
   ("encrypted_payload", .str m.encrypted_payload),
   ("digital_signature", .str m.digital_signature),
   ("hop_count", .nat m.hop_count),
   ("max_hops", .nat m.max_hops)]

structure LocalLedger where
  node_id : String
  blocks : List Block
  pending_messages : List P2PMessage
  last_block_hash : String
deriving DecidableEq

/-- `LocalLedger.__init__`. -/
def LocalLedger.init (node_id : String) : LocalLedger :=
  ⟨node_id, [], [], zerosStr 64⟩

/-- The block dict as `add_message` constructs it before mining. -/
def preBlock (l : LocalLedger) (m : P2PMessage) (now : Nat) : Block :=
  [("block_number", .nat l.blocks.length),
   ("timestamp", .nat now),
   ("previous_hash", .str l.last_block_hash),
   ("message_data", .obj (msgToDict m)),
   ("node_id", .str l.node_id),
   ("nonce", .nat 0)]

/-- `LocalLedger.add_message`: construct the block, mine it at difficulty 2
(mining sets the block's `nonce` in place and the code re-assigns it along
with `block_hash`), append it and advance `last_block_hash`.  `now` is the
`time.time()` stamp; mining carries fuel. -/
def add_message (l : LocalLedger) (m : P2PMessage) (now : Nat) (fuel : Nat) :
    Option (LocalLedger × Block) :=
  match mine_block (preBlock l m now) 2 fuel with
  | none => none
  | some (bh, nonce) =>
    let block := setKey (setKey (preBlock l m now) "nonce" (.nat nonce))
      "block_hash" (.str bh)
    some ({ l with blocks := l.blocks ++ [block], last_block_hash := bh }, block)

/-- Ledgers reachable from a fresh ledger by successful `add_message`
calls. -/
inductive ReachedLedger : LocalLedger → Prop where
  | base (node_id : String) : ReachedLedger (LocalLedger.init node_id)
  | step {l l' : LocalLedger} {m : P2PMessage} {now fuel : Nat} {blk : Block}
      (h : ReachedLedger l) (hs : add_message l m now fuel = some (l', blk)) :
      ReachedLedger l'

/-- The C4 invariant: `last_block_hash` tracks the last block (zero hash on
the empty chain), block numbers equal indices, and adjacent blocks are
hash-linked. -/
def ledgerInv (l : LocalLedger) : Prop :=
  (l.blocks = [] → l.last_block_hash = zerosStr 64) ∧
  (∀ b, l.blocks.getLast? = some b →
    jlookup b "block_hash" = some (.str l.last_block_hash)) ∧
  (∀ (i : Nat) (hi : i < l.blocks.length),
    jlookup (l.blocks.get ⟨i, hi⟩) "block_number" = some (.nat i)) ∧
  List.Chain' (fun p c => jlookup c "previous_hash" = jlookup p "block_hash")
    l.blocks

/-! ## `P2PNetworkSimulator` (backend/p2p_comm/battlefield_network.py)

Dicts keyed by node id become association lists where the key set matters
(`nodes`) and total functions where Python builds one entry per node and
only ever updates in place (`ledgers`, `message_queues`,
`network_topology`; `add_node` creates those entries, so their key set
always equals the node dict's).  `PeerNode` fields that no embedded
operation reads (location, keys, `last_seen`, display name, rank) are
omitted. -/

inductive ConnectivityMode where
  | online
  | p2p_wifi
  | p2p_radio
  | offline
deriving DecidableEq

structure SimNode where
  node_id : String
  connectivity_mode : ConnectivityMode
  is_online : Bool
deriving DecidableEq

/-- `d.get(k)` on a string-keyed dict with arbitrary values. -/
def alookup {α : Type} : List (String × α) → String → Option α
  | [], _ => none
  | (k', v) :: rest, k => if k' = k then some v else alookup rest k

structure SimState where
  nodes : List (String × SimNode)
  ledgers : String → LocalLedger
  message_queues : String → List P2PMessage
  network_topology : String → List String
  server_online : Bool
  lamport_clock : Nat

/-- Whether a node id is present and online. -/
def nodeOnline (nodes : List (String × SimNode)) (q : String) : Bool :=
  match alookup nodes q with
  | some nd => nd.is_online
  | none => false

/-- The peer loop of `deliver_via_p2p`: for each connected peer, skip
offline peers, enqueue at the target recipient, enqueue at every online
peer on broadcast, and on a directed non-recipient peer only bump the
message's hop counter (the "forward" branch `continue`s without
recursing).  Enqueued messages carry the hop count at append time (Python
appends the mutated shared object; no embedded property reads a queued
message's hop counter).  A peer id missing from `nodes` would raise
`KeyError` in Python and is skipped here; theorems assume topology ⊆
nodes. -/
def deliverPeers (nodes : List (String × SimNode)) (m : P2PMessage) :
    List String → (String → List P2PMessage) → Nat → Bool →
    ((String → List P2PMessage) × Nat × Bool)
  | [], qs, hop, del => (qs, hop, del)
  | p :: ps, qs, hop, del =>
    if nodeOnline nodes p = false then deliverPeers nodes m ps qs hop del
    else if m.receiver_id = some p then
      deliverPeers nodes m ps
        (fun q => if q = p then qs q ++ [{ m with hop_count := hop }] else qs q)
        hop true
    else if m.receiver_id = none then
      deliverPeers nodes m ps
        (fun q => if q = p then qs q ++ [{ m with hop_count := hop }] else qs q)
        hop true
    else deliverPeers nodes m ps qs (hop + 1) del

/-- `deliver_via_p2p`. -/
def deliverViaP2P (st : SimState) (m : P2PMessage) : SimState × Bool :=
  if m.max_hops ≤ m.hop_count then (st, false)
  else
    let r := deliverPeers st.nodes m (st.network_topology m.sender_id)
      st.message_queues m.hop_count false
    ({ st with message_queues := r.1 }, r.2.2)

/-- `deliver_via_server`; the dict-membership test
`receiver_id in self.message_queues` is the node-dict membership test,
since `add_node` keeps both key sets equal. -/
def deliver_via_server (st : SimState) (m : P2PMessage) : SimState × Bool :=
  match m.receiver_id with
  | some r =>
    if (alookup st.nodes r).isSome then
      ({ st with message_queues :=
          fun q => if q = r then st.message_queues q ++ [m] else st.message_queues q },
        true)
    else (st, false)
  | none =>
    ({ st with message_queues :=
        fun q => if q ≠ m.sender_id ∧ (alookup st.nodes q).isSome
                 then st.message_queues q ++ [m] else st.message_queues q },
      true)

/-- `route_message` (an absent sender would raise `KeyError`; unreachable
from `send_message`, which checks membership first). -/
def route_message (st : SimState) (m : P2PMessage) : SimState × Bool :=
  match alookup st.nodes m.sender_id with
  | none => (st, false)
  | some snd =>
    if snd.connectivity_mode = .offline then (st, false)
    else if snd.connectivity_mode = .online ∧ st.server_online then
      deliver_via_server st m
    else deliverViaP2P st m

/-- `{node_id: 0 for node_id in self.nodes}` then
`vector_clock[sender_id] = self.lamport_clock`. -/
def mkVectorClock (nodes : List (String × SimNode)) (sender : String) (lam : Nat) :
    List (String × Nat) :=
  nodes.map (fun p => (p.1, if p.1 = sender then lam else 0))

/-- The `P2PMessage(...)` literal built inside `send_message`, after the
Lamport increment. -/
def mkSimMsg (st : SimState) (sender_id : String) (receiver_id : Option String)
    (mtype content msg_id enc sig : String) (now : Nat) : P2PMessage :=
  { message_id := msg_id, sender_id := sender_id, receiver_id := receiver_id,
    message_type := mtype, content := content, timestamp := now,
    lamport_clock := st.lamport_clock + 1,
    vector_clock := mkVectorClock st.nodes sender_id (st.lamport_clock + 1),
    encrypted_payload := enc, digital_signature := sig,
    hop_count := 0, max_hops := 5 }

/-- `send_message`, instrumented to also return the created message
(`none` when the sender is unknown and nothing is created); uuid, AES
payload and signature are inputs; mining inside the ledger append carries
fuel. -/
def send_message_full (st : SimState) (sender_id : String)
    (receiver_id : Option String) (mtype content msg_id enc sig : String)
    (now fuel : Nat) : Option (SimState × Bool × Option P2PMessage) :=
  if (alookup st.nodes sender_id).isNone then some (st, false, none)
  else
    let lam := st.lamport_clock + 1
    let msg := mkSimMsg st sender_id receiver_id mtype content msg_id enc sig now
    match add_message (st.ledgers sender_id) msg now fuel with
    | none => none
    | some (led', _) =>
      let st1 :=
        { st with
          lamport_clock := lam
          ledgers := fun n => if n = sender_id then led' else st.ledgers n }
      let r := route_message st1 msg
      some (r.1, r.2, some msg)

/-- `send_message`'s Python return value. -/
def send_message (st : SimState) (sender_id : String)
    (receiver_id : Option String) (mtype content msg_id enc sig : String)
    (now fuel : Nat) : Option (SimState × Bool) :=
  (send_message_full st sender_id receiver_id mtype content msg_id enc sig
    now fuel).map (fun t => (t.1, t.2.1))

/-- One send request (the randomly generated Python inputs made
explicit). -/
structure SendReq where
  sender_id : String
  receiver_id : Option String
  message_type : String
  content : String
  message_id : String
  encrypted_payload : String
  digital_signature : String
  now : Nat

/-- Run a sequence of sends, collecting the created messages in order;
`none` if any mining runs out of fuel. -/
def runSends (st : SimState) : List SendReq → Nat →
    Option (SimState × List P2PMessage)
  | [], _ => some (st, [])
  | r :: rs, fuel =>
    match send_message_full st r.sender_id r.receiver_id r.message_type
        r.content r.message_id r.encrypted_payload r.digital_signature
        r.now fuel with
    | none => none
    | some (st', _, created) =>
      match runSends st' rs fuel with
      | none => none
      | some (st'', msgs) => some (st'', created.toList ++ msgs)

/-! ## `BattlefieldCommunicationServer` (demo/battlefield_server.py)

WebSocket plumbing, logging, random delays and the event log are I/O and
are not embedded; `handle_send_message`'s random signature suffix and uuid
are inputs.  Positions are the demo's integer coordinates; `distance <=
200` on them is exactly `dx² + dy² ≤ 40000`. -/

inductive NetworkState where
  | centralized
  | p2p_fallback
  | degraded
  | isolated
deriving DecidableEq

inductive NodeStatus where
  | online
  | p2p_only
  | offline
  | reconnecting
deriving DecidableEq

structure BMessage where
  id : String
  sender_id : String
  content : String
  message_type : String
  timestamp : Nat
  lamport_clock : Nat
  recipients : List String
  encrypted : Bool
  signature : String
  route_path : List String
  delivery_attempts : Nat
deriving DecidableEq

structure BNode where
  id : String
  name : String
  rank : String
  unit : String
  posx : Int
  posy : Int
  status : NodeStatus
  lamport_clock : Nat
  message_queue : List BMessage
deriving DecidableEq

structure ServerState where
  server_online : Bool
  network_state : NetworkState
  nodes : List (String × BNode)
  messages : List BMessage
deriving DecidableEq

/-- `calculate_distance(...) <= 200`, squared. -/
def withinRange (ax ay bx by' : Int) : Bool :=
  (ax - bx) * (ax - bx) + (ay - by') * (ay - by') ≤ 40000

/-- The inner target scan of `route_message_p2p`: for one reachable
`current_node`, walk all nodes in dict order, skipping visited and offline
ones, and collect in-range targets into `visited`, `next_hops` and the
message's `route_path`. -/
def scanTargets (node : BNode) :
    List (String × BNode) → List String → List String → List String →
    (List String × List String × List String)
  | [], visited, nexts, route => (visited, nexts, route)
  | (tid, tn) :: rest, visited, nexts, route =>
    if tid ∈ visited ∨ tn.status = .offline then
      scanTargets node rest visited nexts route
    else if withinRange node.posx node.posy tn.posx tn.posy then
      scanTargets node rest (visited ++ [tid]) (nexts ++ [tid]) (route ++ [tid])
    else scanTargets node rest visited nexts route

/-- One hop of the flood: process each node of `current_hops`, skipping
unknown and offline ones. -/
def hopPass (nodes : List (String × BNode)) :
    List String → List String → List String → List String →
    (List String × List String × List String)
  | [], visited, nexts, route => (visited, nexts, route)
  | c :: cs, visited, nexts, route =>
    match alookup nodes c with
    | none => hopPass nodes cs visited nexts route
    | some nd =>
      if nd.status = .offline then hopPass nodes cs visited nexts route
      else
        let r := scanTargets nd nodes visited nexts route
        hopPass nodes cs r.1 r.2.1 r.2.2

/-- `for hop in range(max_hops)` with the early `break` on an empty next
level. -/
def bfsLoop (nodes : List (String × BNode)) :
    Nat → List String → List String → List String → List String
  | 0, _, _, route => route
  | f + 1, curs, visited, route =>
    let r := hopPass nodes curs visited [] route
    if r.2.1 = [] then r.2.2 else bfsLoop nodes f r.2.1 r.1 r.2.2

/-- `route_message_p2p`'s route computation: flooding with TTL
`max_hops = 3` from the sender, on a fresh message (`route_path = []`,
`visited = {sender_id}`). -/
def routeP2P (st : ServerState) (sender_id : String) : List String :=
  bfsLoop st.nodes 3 [sender_id] [sender_id] []

/-- Update one node of the dict in place. -/
def updNode : List (String × BNode) → String → (BNode → BNode) →
    List (String × BNode)
  | [], _, _ => []
  | (k0, v) :: rest, k, f =>
    (if k0 = k then (k0, f v) else (k0, v)) :: updNode rest k f

/-- `handle_send_message`: drop unknown senders; create the message with
the sender's incremented Lamport stamp; route it centralized
(`route_path = ['central_server']`) or P2P (defaulting empty recipients to
all nodes and computing the flood route); append it to the global message
log.  No node's `message_queue` is touched and no sender-status check is
made.  Returns the new state and the created message, if any. -/
def handle_send_message (st : ServerState) (sender_id content mtype : String)
    (recipients : List String) (msg_id sig : String) (now : Nat) :
    ServerState × Option BMessage :=
  match alookup st.nodes sender_id with
  | none => (st, none)
  | some nd =>
    let lam := nd.lamport_clock + 1
    let cr := if st.server_online ∧ st.network_state = .centralized then
        (recipients, ["central_server"])
      else
        ((if recipients = [] then st.nodes.map Prod.fst else recipients),
          routeP2P st sender_id)
    let msg : BMessage :=
      { id := msg_id, sender_id := sender_id, content := content,
        message_type := mtype, timestamp := now, lamport_clock := lam,
        recipients := cr.1, encrypted := true, signature := sig,
        route_path := cr.2, delivery_attempts := 0 }
    ({ st with
       nodes := updNode st.nodes sender_id (fun n => { n with lamport_clock := lam })
       messages := st.messages ++ [msg] },
      some msg)

/-- Python's `max(...)` over the node clocks (the fold equals `max` on any
nonempty list; Python raises on an empty one, so theorems assume
nonemptiness). -/
def listMax : List Nat → Nat
  | [] => 0
  | n :: ns => ns.foldl Nat.max n

/-- The per-node body of `synchronize_network`'s loop:
`node.lamport_clock = max_clock + 1` and `node.message_queue.clear()`. -/
def syncNode (mc : Nat) (b : BNode) : BNode :=
  { b with lamport_clock := mc + 1, message_queue := [] }

/-- `synchronize_network`: set every node's clock to `max + 1` and clear
every queue. -/
def synchronize_network (st : ServerState) : ServerState :=
  let mc := listMax (st.nodes.map (fun p => p.2.lamport_clock))
  { st with nodes := st.nodes.map (fun p => (p.1, syncNode mc p.2)) }

/-- `handle_force_sync` (the event append is I/O). -/
def handle_force_sync (st : ServerState) : ServerState :=
  synchronize_network st

/-- `simulate_server_recovery`'s status flip: `P2P_ONLY` back to
`ONLINE`. -/
def flipNode (b : BNode) : BNode :=
  if b.status = .p2p_only then { b with status := .online } else b

/-- `simulate_server_recovery`: no-op when the server is up; otherwise flip
`P2P_ONLY` nodes back to `ONLINE`, restore the centralized state and
resynchronize. -/
def simulate_server_recovery (st : ServerState) : ServerState :=
  if st.server_online then st
  else
    synchronize_network
      { st with
        server_online := true
        network_state := .centralized
        nodes := st.nodes.map (fun p => (p.1, flipNode p.2)) }

/-- A node's message queue (empty for an unknown id, which Python would
`KeyError`). -/
def queueOf (st : ServerState) (q : String) : List BMessage :=
  match alookup st.nodes q with
  | some nd => nd.message_queue
  | none => []

/-- The five demo nodes of `initialize_demo_nodes`, with a parametric
status assignment (statuses change at runtime; the id set never does). -/
def demoNodes (stat : String → NodeStatus) : List (String × BNode) :=
  [("alpha_1", { id := "alpha_1", name := "Alpha Team Lead", rank := "Sergeant",
                 unit := "Alpha Company", posx := 100, posy := 150,
                 status := stat "alpha_1", lamport_clock := 0, message_queue := [] }),
   ("bravo_1", { id := "bravo_1", name := "Bravo Scout", rank := "Corporal",
                 unit := "Bravo Company", posx := 300, posy := 200,
                 status := stat "bravo_1", lamport_clock := 0, message_queue := [] }),
   ("charlie_1", { id := "charlie_1", name := "Charlie Support", rank := "Private",
                   unit := "Charlie Company", posx := 200, posy := 350,
                   status := stat "charlie_1", lamport_clock := 0, message_queue := [] }),
   ("delta_1", { id := "delta_1", name := "Delta Command", rank := "Lieutenant",
                 unit := "Delta Command", posx := 450, posy := 180,
                 status := stat "delta_1", lamport_clock := 0, message_queue := [] }),
   ("echo_1", { id := "echo_1", name := "Echo Medic", rank := "Corporal",
                unit := "Echo Support", posx := 350, posy := 100,
                status := stat "echo_1", lamport_clock := 0, message_queue := [] })]

def demoIds : List String :=
  ["alpha_1", "bravo_1", "charlie_1", "delta_1", "echo_1"]

/-! ### Concrete blocks and transactions used as inputs -/

def txA : Block := [("a", JVal.str "1")]

def txB : Block := [("b", JVal.str "2")]

/-- A block violating the claimed genesis conditions (`block_number = 7`,
`previous_hash = "ff"`) whose stored hash is nevertheless valid. -/
def cxBase : Block := [("block_number", JVal.nat 7), ("previous_hash", JVal.str "ff")]

def cxBlock : Block := cxBase ++ [("block_hash", JVal.str (calculate_block_hash cxBase))]

def mineDemo : Block := [("data", JVal.str "x")]

/-- A concrete message whose ledger block mines at difficulty 2 with
nonce 0 (so concrete runs stay kernel-evaluable). -/
def demoMsg : P2PMessage :=
  { message_id := "m1", sender_id := "alpha_1", receiver_id := some "bravo_1",
    message_type := "chat", content := "c314", timestamp := 1000,
    lamport_clock := 1, vector_clock := [("alpha_1", 1)],
    encrypted_payload := "ep", digital_signature := "sig",
    hop_count := 0, max_hops := 5 }

/-- The first successful `add_message` result on a fresh `alpha_1` ledger,
used as concrete data (its mining succeeds at nonce 0). -/
def demoAdded : LocalLedger × Block :=
  (add_message (LocalLedger.init "alpha_1") demoMsg 1000 1).getD
    (LocalLedger.init "alpha_1", [])

/-- A one-node simulator as `add_node` leaves it (the node is `OFFLINE`, so
routing does nothing and a concrete send stays cheap). -/
def demoSim : SimState :=
  { nodes := [("alpha_1", ⟨"alpha_1", .offline, true⟩)],
    ledgers := fun n => LocalLedger.init n,
    message_queues := fun _ => [],
    network_topology := fun _ => [],
    server_online := true,
    lamport_clock := 0 }

/-- A send request whose created message is exactly `demoMsg`, so its
ledger block mines at nonce 0. -/
def demoReq : SendReq :=
  { sender_id := "alpha_1", receiver_id := some "bravo_1",
    message_type := "chat", content := "c314", message_id := "m1",
    encrypted_payload := "ep", digital_signature := "sig", now := 1000 }

def demoRun : SimState × List P2PMessage :=
  (runSends demoSim [demoReq] 1).getD (demoSim, [])

/-- The demo server with `alpha_1` forced `OFFLINE`. -/
def demoOffSt : ServerState :=
  { server_online := true, network_state := .centralized,
    nodes := demoNodes (fun n => if n = "alpha_1" then .offline else .online),
    messages := [] }

/-- `alpha_1`'s node record in `demoOffSt`. -/
def demoOffNd : BNode :=
  { id := "alpha_1", name := "Alpha Team Lead", rank := "Sergeant",
    unit := "Alpha Company", posx := 100, posy := 150,
    status := .offline, lamport_clock := 0, message_queue := [] }

/-- The demo server in P2P fallback mode with every node online. -/
def demoP2PSt : ServerState :=
  { server_online := false, network_state := .p2p_fallback,
    nodes := demoNodes (fun _ => .online), messages := [] }

def dummyBMsg : BMessage :=
  { id := "", sender_id := "", content := "", message_type := "",
    timestamp := 0, lamport_clock := 0, recipients := [], encrypted := true,
    signature := "", route_path := [], delivery_attempts := 0 }

/-- The message a concrete P2P-mode send creates. -/
def demoP2PMsg : BMessage :=
  (handle_send_message demoP2PSt "alpha_1" "go" "chat" [] "m2" "sig_1" 7).2.getD
    dummyBMsg

/-- A two-node server state before synchronization: clocks 3 and 5, one
node participating (`P2P_ONLY`), one `OFFLINE`. -/
def demoSyncSt : ServerState :=
  { server_online := false, network_state := .p2p_fallback,
    nodes :=
      [("alpha_1", { id := "alpha_1", name := "Alpha Team Lead", rank := "Sergeant",
                     unit := "Alpha Company", posx := 100, posy := 150,
                     status := .p2p_only, lamport_clock := 3, message_queue := [] }),
       ("bravo_1", { id := "bravo_1", name := "Bravo Scout", rank := "Corporal",
                     unit := "Bravo Company", posx := 300, posy := 200,
                     status := .offline, lamport_clock := 5, message_queue := [] })],
    messages := [] }

/-! ## Theorems: chain validation (C1) -/

theorem chainRest_iff (prev : Block) (rest : List Block) :
    chainRest prev rest = true ↔
      ((∀ b ∈ rest, validate_block_hash b = true) ∧
        List.Chain' (fun p c => jlookup c "previous_hash" = jlookup p "block_hash")
          (prev :: rest)) := by
  induction rest generalizing prev with
  | nil => simp [chainRest]
  | cons c cs ih =>
    simp only [chainRest, Bool.and_eq_true, beq_iff_eq, ih c, List.chain'_cons,
      List.mem_cons, forall_eq_or_imp]
    tauto

/-- C1, amended: `validate_block_chain` accepts a list of blocks if and only
if every block's stored `block_hash` equals the hash recomputed over the
block without that field, and every adjacent pair is linked by
`cur.previous_hash == prev.block_hash` — with the empty chain accepted.  The
code checks neither block-number increments nor any genesis condition. -/
theorem C1_validate_block_chain_iff (blocks : List Block) :
    validate_block_chain blocks = true ↔
      ((∀ b ∈ blocks, validate_block_hash b = true) ∧
        List.Chain' (fun p c => jlookup c "previous_hash" = jlookup p "block_hash")
          blocks) := by
  cases blocks with
  | nil => simp [validate_block_chain]
  | cons b0 rest =>
    simp only [validate_block_chain, Bool.and_eq_true, chainRest_iff, List.mem_cons,
      forall_eq_or_imp]
    tauto

/-- C1 counterexample to the claim as stated: a single-block chain whose
block has `block_number = 7` and `previous_hash = "ff"` (violating the
claimed genesis conditions) but a valid stored hash is accepted by
`validate_block_chain`, while the claim's acceptance condition rejects
it. -/
theorem C1_validate_genesis_counterexample :
    validate_block_chain [cxBlock] = true ∧ chainClaimedOk [cxBlock] = false := by
  decide

/-! ## Theorems: merkle root (C2) -/

theorem specPair_eq_pairLevel : ∀ ls : List String, specPair ls = pairLevel ls
  | [] => rfl
  | [_] => rfl
  | _ :: _ :: rest => by simp [specPair, pairLevel, specPair_eq_pairLevel rest]

theorem reduceSpecGo_fuel :
    ∀ (f f' : Nat) (ls : List String), ls.length ≤ f + 1 → ls.length ≤ f' + 1 →
      reduceSpecGo f ls = reduceSpecGo f' ls := by
  intro f
  induction f with
  | zero =>
    intro f' ls h _
    match ls with
    | [] => cases f' <;> rfl
    | [x] => cases f' <;> rfl
    | x :: y :: rest => simp only [List.length_cons] at h; omega
  | succ f ih =>
    intro f' ls h h'
    match ls with
    | [] => cases f' <;> rfl
    | [x] => cases f' <;> rfl
    | x :: y :: rest =>
      obtain ⟨f'', rfl⟩ : ∃ f'', f' = f'' + 1 := by
        cases f' with
        | zero => simp only [List.length_cons] at h'; omega
        | succ m => exact ⟨m, rfl⟩
      show reduceSpecGo f (specPair (x :: y :: rest))
          = reduceSpecGo f'' (specPair (x :: y :: rest))
      have hl := specPair_length (x :: y :: rest)
      have hlen : (x :: y :: rest).length = rest.length + 2 := by simp
      apply ih <;> omega

theorem reduceSpec_step (ls : List String) (h : 1 < ls.length) :
    reduceSpec ls = reduceSpec (specPair ls) := by
  match ls with
  | [] => simp at h
  | [x] => simp at h
  | x :: y :: rest =>
    show reduceSpecGo (rest.length + 1) (specPair (x :: y :: rest))
        = reduceSpecGo (specPair (x :: y :: rest)).length (specPair (x :: y :: rest))
    have hl := specPair_length (x :: y :: rest)
    have hlen : (x :: y :: rest).length = rest.length + 2 := by simp
    apply reduceSpecGo_fuel <;> omega

theorem merkleLoopGo_headD :
    ∀ (f : Nat) (ls : List String), ls ≠ [] → ls.length ≤ f + 1 →
      (merkleLoopGo f ls).headD (sha256hexBytes []) = reduceSpec ls := by
  intro f
  induction f with
  | zero =>
    intro ls hne h
    match ls with
    | [] => exact absurd rfl hne
    | [x] => rfl
    | x :: y :: rest => simp only [List.length_cons] at h; omega
  | succ f ih =>
    intro ls hne h
    by_cases hlen : 1 < ls.length
    · have hl := pairLevel_length ls
      have hpne : pairLevel ls ≠ [] := by
        intro hc
        rw [hc] at hl
        simp at hl
        omega
      rw [show merkleLoopGo (f + 1) ls = merkleLoopGo f (pairLevel ls) by
            simp [merkleLoopGo, hlen],
          ih (pairLevel ls) hpne (by omega),
          reduceSpec_step ls hlen, specPair_eq_pairLevel]
    · match ls with
      | [] => exact absurd rfl hne
      | [x] => simp [merkleLoopGo, reduceSpec, reduceSpecGo]
      | x :: y :: rest => simp at hlen

/-- C2: `create_merkle_tree` returns the spec's merkle root on every input
(`Hash("")` on the empty list; otherwise leaves from canonically serialized
transactions reduced pairwise, duplicating an odd trailing leaf), and the
root is order-dependent: swapping two concrete transactions changes it. -/
theorem C2_create_merkle_tree_spec :
    (∀ txs : List Block, create_merkle_tree txs = merkleRootSpec txs) ∧
      create_merkle_tree [txA, txB] ≠ create_merkle_tree [txB, txA] := by
  constructor
  · intro txs
    by_cases h : txs = []
    · subst h; rfl
    · unfold create_merkle_tree merkleRootSpec
      rw [if_neg h, if_neg h]
      exact merkleLoopGo_headD _ _ (by simpa using h) (by simp)
  · decide

/-! ## Theorems: proof-of-work mining (C5) -/

theorem mineAux_spec :
    ∀ (b : Block) (t : String) (fuel start n : Nat) (hsh : String),
      mineAux b t start fuel = some (hsh, n) →
        start ≤ n ∧ hsh = calculate_block_hash (setKey b "nonce" (.nat n)) ∧
        pyStarts hsh t = true ∧
        ∀ m, start ≤ m → m < n →
          pyStarts (calculate_block_hash (setKey b "nonce" (.nat m))) t = false := by
  intro b t fuel
  induction fuel with
  | zero => intro start n hsh h; simp [mineAux] at h
  | succ f ih =>
    intro start n hsh h
    simp only [mineAux] at h
    by_cases hc : pyStarts (calculate_block_hash (setKey b "nonce" (.nat start))) t = true
    · rw [if_pos hc] at h
      simp only [Option.some.injEq, Prod.mk.injEq] at h
      obtain ⟨rfl, rfl⟩ := h
      exact ⟨Nat.le_refl _, rfl, hc, fun m hm hm' =>
        absurd (Nat.lt_of_le_of_lt hm hm') (Nat.lt_irrefl _)⟩
    · rw [if_neg hc] at h
      obtain ⟨hle, h1, h2, h3⟩ := ih (start + 1) n hsh h
      refine ⟨Nat.le_of_succ_le hle, h1, h2, fun m hm hm' => ?_⟩
      rcases Nat.eq_or_lt_of_le hm with rfl | hgt
      · exact Bool.not_eq_true _ ▸ hc
      · exact h3 m hgt hm'

/-- C5: whenever `mine_block` returns `(hash, nonce)`, the hash is the
canonical hash of the block with that nonce set, it starts with `difficulty`
leading `'0'` characters, and the nonce is least with this property (the
search starts at 0 and increments by 1). -/
theorem C5_mine_block_found (b : Block) (difficulty fuel n : Nat) (hsh : String)
    (hres : mine_block b difficulty fuel = some (hsh, n)) :
    hsh = calculate_block_hash (setKey b "nonce" (.nat n)) ∧
    pyStarts hsh (zerosStr difficulty) = true ∧
    ∀ m < n, pyStarts (calculate_block_hash (setKey b "nonce" (.nat m)))
      (zerosStr difficulty) = false := by
  obtain ⟨-, h1, h2, h3⟩ := mineAux_spec b (zerosStr difficulty) fuel 0 n hsh hres
  exact ⟨h1, h2, fun m hm => h3 m (Nat.zero_le m) hm⟩

/-- Witness for C5: mining `mineDemo` at difficulty 0 returns at nonce 0
with the block's canonical hash. -/
theorem C5_mine_block_found_witness :
    "59140ca55c631674ae1ed2696a27fae0ba6bd6f12068208afcb8aa1f6f48edc3"
        = calculate_block_hash (setKey mineDemo "nonce" (.nat 0)) ∧
    pyStarts "59140ca55c631674ae1ed2696a27fae0ba6bd6f12068208afcb8aa1f6f48edc3"
        (zerosStr 0) = true ∧
    ∀ m < 0, pyStarts (calculate_block_hash (setKey mineDemo "nonce" (.nat m)))
      (zerosStr 0) = false :=
  C5_mine_block_found mineDemo 0 1 0
    "59140ca55c631674ae1ed2696a27fae0ba6bd6f12068208afcb8aa1f6f48edc3" (by decide)

/-! ## Theorems: ledger append (C3) and ledger invariants (C4) -/

theorem jlookup_setKey_self (b : PyDict) (k : String) (v : JVal) :
    jlookup (setKey b k v) k = some v := by
  induction b with
  | nil => simp [setKey, jlookup]
  | cons p rest ih =>
    obtain ⟨k', v'⟩ := p
    by_cases h : k' = k
    · simp [setKey, h, jlookup]
    · simp [setKey, h, jlookup, ih]

theorem jlookup_setKey_ne (b : PyDict) (k k' : String) (v : JVal) (h : k' ≠ k) :
    jlookup (setKey b k v) k' = jlookup b k' := by
  induction b with
  | nil => simp [setKey, jlookup, Ne.symm h]
  | cons p rest ih =>
    obtain ⟨k₀, v₀⟩ := p
    by_cases h0 : k₀ = k
    · subst h0
      simp [setKey, jlookup, Ne.symm h]
    · by_cases h1 : k₀ = k'
      · simp [setKey, h0, jlookup, h1, h]
      · simp [setKey, h0, jlookup, h1, ih]

/-- What one successful `add_message` does: the appended block carries the
pre-block's fields, the mined hash and nonce, has no `merkle_root` field,
and the ledger's chain and `last_block_hash` advance accordingly. -/
theorem add_message_spec (l : LocalLedger) (m : P2PMessage) (now fuel : Nat)
    (l' : LocalLedger) (blk : Block)
    (h : add_message l m now fuel = some (l', blk)) :
    jlookup blk "block_number" = some (.nat l.blocks.length) ∧
    jlookup blk "previous_hash" = some (.str l.last_block_hash) ∧
    jlookup blk "timestamp" = some (.nat now) ∧
    jlookup blk "message_data" = some (.obj (msgToDict m)) ∧
    jlookup blk "merkle_root" = none ∧
    (∃ bh nonce, mine_block (preBlock l m now) 2 fuel = some (bh, nonce) ∧
      l'.last_block_hash = bh ∧
      jlookup blk "block_hash" = some (.str bh) ∧
      jlookup blk "nonce" = some (.nat nonce)) ∧
    l'.blocks = l.blocks ++ [blk] ∧
    l'.node_id = l.node_id := by
  unfold add_message at h
  cases hm : mine_block (preBlock l m now) 2 fuel with
  | none => rw [hm] at h; exact absurd h (by simp)
  | some p =>
    obtain ⟨bh, nonce⟩ := p
    rw [hm] at h
    simp only [Option.some.injEq, Prod.mk.injEq] at h
    obtain ⟨hl', hblk⟩ := h
    subst hl' hblk
    refine ⟨?_, ?_, ?_, ?_, ?_, ⟨bh, nonce, rfl, rfl, ?_, ?_⟩, rfl, rfl⟩ <;>
      simp [jlookup_setKey_self, jlookup_setKey_ne, preBlock, jlookup, setKey]

/-- C4: any ledger reachable from a fresh one by `add_message` calls
satisfies the ledger invariant: `last_block_hash` is the last block's hash
(the 64-zero hash when empty), block numbers equal indices, and each
block's `previous_hash` is its predecessor's `block_hash`. -/
theorem C4_reachable_ledger_invariant (l : LocalLedger) (h : ReachedLedger l) :
    ledgerInv l := by
  induction h with
  | base nid =>
    exact ⟨fun _ => rfl, fun b hb => by simp [LocalLedger.init] at hb,
      fun i hi => absurd hi (by simp [LocalLedger.init]), List.chain'_nil⟩
  | step h hs ih =>
    rename_i l₀ l₁ m now fuel blk
    obtain ⟨hnum, hprev, -, -, -, ⟨bh, nonce, hmine, hlast, hbh, -⟩, hblocks, -⟩ :=
      add_message_spec _ _ _ _ _ _ hs
    obtain ⟨-, ilast, iidx, ichain⟩ := ih
    refine ⟨?_, ?_, ?_, ?_⟩
    · intro hc
      rw [hblocks] at hc
      simp at hc
    · intro b hb
      rw [hblocks, List.getLast?_concat] at hb
      obtain rfl := Option.some.inj hb
      rw [hlast]
      exact hbh
    · intro i hi
      have hi' : i < (l₀.blocks ++ [blk]).length := by rw [← hblocks]; exact hi
      rw [List.get_eq_getElem, List.getElem_of_eq hblocks hi]
      rcases Nat.lt_or_ge i l₀.blocks.length with hlt | hge
      · rw [List.getElem_append_left hlt]
        have := iidx i hlt
        rwa [List.get_eq_getElem] at this
      · have hieq : i = l₀.blocks.length := by
          simp only [List.length_append, List.length_cons, List.length_nil] at hi'
          omega
        subst hieq
        simp only [List.getElem_concat_length]
        exact hnum
    · rw [hblocks, List.chain'_append]
      refine ⟨ichain, List.chain'_singleton _, fun x hx y hy => ?_⟩
      simp only [List.head?_cons, Option.mem_def, Option.some.injEq] at hy
      subst hy
      rw [hprev]
      exact (ilast x hx).symm

/-- Witness for C4 at a concrete reachable ledger (the fresh ledger). -/
theorem C4_reachable_ledger_invariant_witness :
    ledgerInv (LocalLedger.init "alpha_1") :=
  C4_reachable_ledger_invariant _ (ReachedLedger.base "alpha_1")

/-- C3, amended: a successful `add_message` builds the appended block with
`block_number = len(chain)`, `previous_hash = last_block_hash`, the given
fresh timestamp and the message data, mines it at difficulty 2, stores the
mined hash and nonce, and advances `last_block_hash` — but the block
carries no `merkle_root` field at all. -/
theorem C3_add_message_block (l : LocalLedger) (m : P2PMessage) (now fuel : Nat)
    (l' : LocalLedger) (blk : Block)
    (h : add_message l m now fuel = some (l', blk)) :
    jlookup blk "block_number" = some (.nat l.blocks.length) ∧
    jlookup blk "previous_hash" = some (.str l.last_block_hash) ∧
    jlookup blk "timestamp" = some (.nat now) ∧
    jlookup blk "message_data" = some (.obj (msgToDict m)) ∧
    jlookup blk "merkle_root" = none ∧
    (∃ bh nonce, mine_block (preBlock l m now) 2 fuel = some (bh, nonce) ∧
      l'.last_block_hash = bh ∧
      jlookup blk "block_hash" = some (.str bh) ∧
      jlookup blk "nonce" = some (.nat nonce)) ∧
    l'.blocks = l.blocks ++ [blk] := by
  obtain ⟨h1, h2, h3, h4, h5, h6, h7, -⟩ := add_message_spec l m now fuel l' blk h
  exact ⟨h1, h2, h3, h4, h5, h6, h7⟩

/-- C3 counterexample to the claim as stated: on a concrete successful
`add_message`, the appended block has no `merkle_root` field, so it is not
the merkle root of the message's single-transaction list (nor anything
else). -/
theorem C3_merkle_root_counterexample :
    add_message (LocalLedger.init "alpha_1") demoMsg 1000 1
        = some (demoAdded.1, demoAdded.2) ∧
    jlookup demoAdded.2 "merkle_root" = none ∧
    jlookup demoAdded.2 "merkle_root"
        ≠ some (.str (create_merkle_tree [msgToDict demoMsg])) := by
  refine ⟨by decide, by decide, ?_⟩
  intro hc
  rw [show jlookup demoAdded.2 "merkle_root" = none by decide] at hc
  exact Option.noConfusion hc

/-! ## Theorems: P2P delivery (C9) -/

theorem deliverPeers_queues (nodes : List (String × SimNode)) (m : P2PMessage)
    (r : String) (hrecv : m.receiver_id = some r) :
    ∀ (ps : List String) (qs : String → List P2PMessage) (hop : Nat) (del : Bool),
      ps.Nodup →
      ∀ q, ∃ k, (deliverPeers nodes m ps qs hop del).1 q
        = qs q ++ (if q = r ∧ r ∈ ps ∧ nodeOnline nodes r = true
                   then [{ m with hop_count := k }] else []) := by
  intro ps
  induction ps with
  | nil =>
    intro qs hop del _ q
    exact ⟨0, by simp [deliverPeers]⟩
  | cons p ps ih =>
    intro qs hop del hnodup q
    obtain ⟨hp, hnd⟩ := List.nodup_cons.mp hnodup
    unfold deliverPeers
    by_cases hon : nodeOnline nodes p = false
    · rw [if_pos hon]
      obtain ⟨k, hk⟩ := ih qs hop del hnd q
      refine ⟨k, hk.trans ?_⟩
      by_cases hrp : r = p
      · simp [hrp, hon]
      · simp [List.mem_cons, hrp]
    · rw [if_neg hon]
      have hon' : nodeOnline nodes p = true := by
        cases h : nodeOnline nodes p
        · exact absurd h hon
        · rfl
      by_cases hpr : p = r
      · rw [if_pos (by rw [hrecv, hpr])]
        obtain ⟨k, hk⟩ := ih
          (fun q' => if q' = p then qs q' ++ [{ m with hop_count := hop }] else qs q')
          hop true hnd q
        have hrps : r ∉ ps := by rw [← hpr]; exact hp
        refine ⟨if q = p then hop else k, hk.trans ?_⟩
        by_cases hqp : q = p
        · subst hqp
          simp [hrps, ← hpr, hon', hp]
        · have hqr : ¬ q = r := by rw [← hpr]; exact hqp
          simp [hqp, hqr]
      · rw [if_neg (by rw [hrecv]; exact fun hc => hpr (Option.some.inj hc).symm),
          if_neg (by rw [hrecv]; exact fun hc => Option.noConfusion hc)]
        obtain ⟨k, hk⟩ := ih qs (hop + 1) del hnd q
        refine ⟨k, hk.trans ?_⟩
        have hrp : ¬ r = p := fun h => hpr h.symm
        simp [List.mem_cons, hrp]

/-- C9: with a set receiver and hop budget left, `deliver_via_p2p` appends
the message to a node's queue exactly when that node is the receiver, is a
direct neighbor of the sender in the topology, and is online (the appended
copy carries some bumped hop counter `k`); every other queue — in
particular every non-neighbor's — is unchanged, whatever the hop budget. -/
theorem C9_deliver_via_p2p_queues (st : SimState) (m : P2PMessage) (r : String)
    (hrecv : m.receiver_id = some r) (hhop : m.hop_count < m.max_hops)
    (hnodup : (st.network_topology m.sender_id).Nodup) :
    ∀ q, ∃ k, (deliverViaP2P st m).1.message_queues q
      = st.message_queues q
        ++ (if q = r ∧ r ∈ st.network_topology m.sender_id ∧
              nodeOnline st.nodes r = true
            then [{ m with hop_count := k }] else []) := by
  intro q
  unfold deliverViaP2P
  rw [if_neg (by omega)]
  exact deliverPeers_queues st.nodes m r hrecv _ _ _ _ hnodup q

/-- Witness for C9: a sender with one online neighbor that is the
receiver. -/
theorem C9_deliver_via_p2p_queues_witness :
    ∃ k,
      (deliverViaP2P
        { demoSim with
          nodes := [("alpha_1", ⟨"alpha_1", .p2p_wifi, true⟩),
                    ("bravo_1", ⟨"bravo_1", .p2p_wifi, true⟩)]
          network_topology := fun n => if n = "alpha_1" then ["bravo_1"] else [] }
        demoMsg).1.message_queues "bravo_1"
      = (fun _ => ([] : List P2PMessage)) "bravo_1"
        ++ (if "bravo_1" = "bravo_1" ∧ "bravo_1" ∈ ["bravo_1"] ∧
              nodeOnline [("alpha_1", ⟨"alpha_1", .p2p_wifi, true⟩),
                          ("bravo_1", ⟨"bravo_1", .p2p_wifi, true⟩)] "bravo_1" = true
            then [{ demoMsg with hop_count := k }] else []) :=
  C9_deliver_via_p2p_queues _ demoMsg "bravo_1" rfl (by decide) (by decide) "bravo_1"

/-! ## Theorems: the simulator's global Lamport counter (C10) -/

theorem route_message_clock (st : SimState) (m : P2PMessage) :
    (route_message st m).1.lamport_clock = st.lamport_clock := by
  unfold route_message
  cases alookup st.nodes m.sender_id with
  | none => rfl
  | some snd =>
    by_cases h1 : snd.connectivity_mode = .offline
    · simp [h1]
    · by_cases h2 : snd.connectivity_mode = .online ∧ st.server_online = true
      · simp only [h1, if_false, h2, if_true]
        unfold deliver_via_server
        cases m.receiver_id with
        | none => rfl
        | some r =>
          by_cases h3 : (alookup st.nodes r).isSome
          · simp [h3]
          · simp [h3]
      · simp only [h1, if_false, h2, if_false]
        unfold deliverViaP2P
        by_cases h4 : m.max_hops ≤ m.hop_count
        · simp [h4]
        · simp [h4]

theorem send_full_clock (st : SimState) (sender_id : String)
    (receiver_id : Option String) (mtype content msg_id enc sig : String)
    (now fuel : Nat) (out : SimState × Bool × Option P2PMessage)
    (h : send_message_full st sender_id receiver_id mtype content msg_id enc sig
      now fuel = some out) :
    (out.2.2 = none ∧ out.1 = st) ∨
    (∃ msg, out.2.2 = some msg ∧ msg.lamport_clock = st.lamport_clock + 1 ∧
      out.1.lamport_clock = st.lamport_clock + 1) := by
  unfold send_message_full at h
  by_cases hs : (alookup st.nodes sender_id).isNone
  · rw [if_pos hs] at h
    obtain rfl := Option.some.inj h
    exact Or.inl ⟨rfl, rfl⟩
  · rw [if_neg hs] at h
    simp only at h
    cases hadd : add_message (st.ledgers sender_id)
        (mkSimMsg st sender_id receiver_id mtype content msg_id enc sig now)
        now fuel with
    | none => rw [hadd] at h; exact absurd h (by simp)
    | some p =>
      rw [hadd] at h
      obtain rfl := Option.some.inj h
      refine Or.inr ⟨_, rfl, rfl, ?_⟩
      exact (route_message_clock _ _).trans rfl

theorem runSends_lamport :
    ∀ (rs : List SendReq) (st : SimState) (fuel : Nat) (st' : SimState)
      (msgs : List P2PMessage),
      runSends st rs fuel = some (st', msgs) →
        msgs.map (fun m => m.lamport_clock)
          = List.range' (st.lamport_clock + 1) msgs.length ∧
        st'.lamport_clock = st.lamport_clock + msgs.length := by
  intro rs
  induction rs with
  | nil =>
    intro st fuel st' msgs h
    simp only [runSends, Option.some.injEq, Prod.mk.injEq] at h
    obtain ⟨rfl, rfl⟩ := h
    simp [List.range']
  | cons r rs ih =>
    intro st fuel st' msgs h
    unfold runSends at h
    split at h
    · exact absurd h (by simp)
    · rename_i st1 ok created hsend
      split at h
      · exact absurd h (by simp)
      · rename_i st2 msgs' hrun
        simp only [Option.some.injEq, Prod.mk.injEq] at h
        obtain ⟨rfl, rfl⟩ := h
        obtain ⟨hmap, hclock⟩ := ih st1 fuel st2 msgs' hrun
        rcases send_full_clock st r.sender_id r.receiver_id r.message_type
            r.content r.message_id r.encrypted_payload r.digital_signature
            r.now fuel (st1, ok, created) hsend with
          ⟨hnone, hst⟩ | ⟨msg, hsome, hlam, hclk⟩
        · simp only at hnone hst
          subst hnone hst
          simpa using ⟨hmap, hclock⟩
        · simp only at hsome hclk
          subst hsome
          rw [hclk] at hmap hclock
          simp only [Option.toList_some, List.cons_append, List.nil_append,
            List.map_cons, List.length_cons]
          refine ⟨?_, by omega⟩
          rw [hlam, hmap]
          rfl

/-- C10: the simulator keeps one network-global Lamport counter; each send
with a known sender stamps its created message with the incremented
counter, so across any run the created messages carry the consecutive
values 1, 2, 3, … in send order, with no value repeated. -/
theorem C10_lamport_consecutive (st : SimState) (h0 : st.lamport_clock = 0)
    (reqs : List SendReq) (fuel : Nat) (st' : SimState)
    (msgs : List P2PMessage)
    (hrun : runSends st reqs fuel = some (st', msgs)) :
    msgs.map (fun m => m.lamport_clock) = List.range' 1 msgs.length ∧
    (msgs.map (fun m => m.lamport_clock)).Nodup ∧
    st'.lamport_clock = msgs.length := by
  obtain ⟨h1, h2⟩ := runSends_lamport reqs st fuel st' msgs hrun
  rw [h0] at h1 h2
  refine ⟨by simpa using h1, ?_, by simpa using h2⟩
  have h1' : msgs.map (fun m => m.lamport_clock) = List.range' 1 msgs.length := by
    simpa using h1
  rw [h1']
  exact List.nodup_range' _ _

/-- Witness for C10: one concrete send from the one-node simulator. -/
theorem C10_lamport_consecutive_witness :
    demoRun.2.map (fun m => m.lamport_clock) = List.range' 1 demoRun.2.length ∧
    (demoRun.2.map (fun m => m.lamport_clock)).Nodup ∧
    demoRun.1.lamport_clock = demoRun.2.length :=
  C10_lamport_consecutive demoSim rfl [demoReq] 1 demoRun.1 demoRun.2 rfl

/-! ## Theorems: sends from senders that are not ONLINE/P2P_ONLY (C6) -/

theorem alookup_updNode (ns : List (String × BNode)) (k : String)
    (f : BNode → BNode) (q : String) :
    alookup (updNode ns k f) q
      = if q = k then (alookup ns q).map f else alookup ns q := by
  induction ns with
  | nil => by_cases h : q = k <;> simp [updNode, alookup, h]
  | cons p rest ih =>
    obtain ⟨k0, v0⟩ := p
    unfold updNode
    by_cases h1 : k0 = k
    · rw [if_pos h1]
      by_cases h2 : q = k0
      · subst h2
        simp [alookup, h1]
      · have h2' : ¬ k0 = q := fun hc => h2 hc.symm
        simp [alookup, h2', ih]
    · rw [if_neg h1]
      by_cases h2 : q = k0
      · subst h2
        simp [alookup, h1]
      · have h2' : ¬ k0 = q := fun hc => h2 hc.symm
        simp [alookup, h2', ih]

/-- C6, amended: the demo server never defers a message.
`handle_send_message` makes no sender-status check: for a sender with
status `OFFLINE` the message is still created with the incremented Lamport
stamp, appended to the global message log and routed per network state,
while every node's `message_queue` is unchanged (there is no offline queue
and no `DEFERRED` status).  In the P2P simulator, `route_message` from an
`OFFLINE` sender returns `False` and changes nothing. -/
theorem C6_offline_sender_not_deferred :
    (∀ (st : ServerState) (sender content mtype : String) (recips : List String)
        (msg_id sig : String) (now : Nat) (nd : BNode),
        alookup st.nodes sender = some nd → nd.status = .offline →
        ∃ msg,
          (handle_send_message st sender content mtype recips msg_id sig now).2
            = some msg ∧
          msg.lamport_clock = nd.lamport_clock + 1 ∧
          (handle_send_message st sender content mtype recips msg_id sig now).1.messages
            = st.messages ++ [msg] ∧
          ∀ q, queueOf
              (handle_send_message st sender content mtype recips msg_id sig now).1 q
            = queueOf st q) ∧
    (∀ (sim : SimState) (m : P2PMessage) (snd : SimNode),
        alookup sim.nodes m.sender_id = some snd →
        snd.connectivity_mode = .offline →
        route_message sim m = (sim, false)) := by
  constructor
  · intro st sender content mtype recips msg_id sig now nd hs hoff
    unfold handle_send_message
    rw [hs]
    refine ⟨_, rfl, rfl, rfl, fun q => ?_⟩
    unfold queueOf
    simp only
    rw [alookup_updNode]
    by_cases hq : q = sender
    · rw [if_pos hq]
      cases alookup st.nodes q <;> rfl
    · rw [if_neg hq]
  · intro sim m snd hs hoff
    unfold route_message
    rw [hs]
    simp [hoff]

/-- C6 counterexample to the claim as stated: a concrete send from the
OFFLINE `alpha_1` creates and logs a message, and the sender's queue does
not grow by 1 (it does not grow at all) — the claimed deferral behavior
does not exist. -/
theorem C6_offline_sender_counterexample :
    ((handle_send_message demoOffSt "alpha_1" "hello" "chat" [] "m1"
        "sig_1234" 5).2).isSome = true ∧
    queueOf (handle_send_message demoOffSt "alpha_1" "hello" "chat" [] "m1"
        "sig_1234" 5).1 "alpha_1" = queueOf demoOffSt "alpha_1" ∧
    ¬ ((queueOf (handle_send_message demoOffSt "alpha_1" "hello" "chat" [] "m1"
        "sig_1234" 5).1 "alpha_1").length
      = (queueOf demoOffSt "alpha_1").length + 1) := by
  refine ⟨by decide, by decide, ?_⟩
  intro hc
  rw [show queueOf (handle_send_message demoOffSt "alpha_1" "hello" "chat" []
      "m1" "sig_1234" 5).1 "alpha_1" = [] by decide,
    show queueOf demoOffSt "alpha_1" = [] by decide] at hc
  simp at hc

/-- Witness for C6 at concrete offline senders in both systems. -/
theorem C6_offline_sender_not_deferred_witness :
    (∃ msg,
      (handle_send_message demoOffSt "alpha_1" "hello" "chat" [] "m1"
          "sig_1234" 5).2 = some msg ∧
      msg.lamport_clock = demoOffNd.lamport_clock + 1 ∧
      (handle_send_message demoOffSt "alpha_1" "hello" "chat" [] "m1"
          "sig_1234" 5).1.messages = demoOffSt.messages ++ [msg] ∧
      ∀ q, queueOf (handle_send_message demoOffSt "alpha_1" "hello" "chat" []
          "m1" "sig_1234" 5).1 q = queueOf demoOffSt q) ∧
    route_message demoSim demoMsg = (demoSim, false) :=
  ⟨C6_offline_sender_not_deferred.1 demoOffSt "alpha_1" "hello" "chat" []
      "m1" "sig_1234" 5 demoOffNd (by decide) (by decide),
   C6_offline_sender_not_deferred.2 demoSim demoMsg
      ⟨"alpha_1", .offline, true⟩ (by decide) (by decide)⟩

/-! ## Theorems: synchronization advances clocks to max + 1 (C8) -/

theorem alookup_map_snd {α β : Type} (l : List (String × α)) (f : α → β)
    (q : String) :
    alookup (l.map (fun p => (p.1, f p.2))) q = (alookup l q).map f := by
  induction l with
  | nil => rfl
  | cons p rest ih =>
    by_cases h : p.1 = q
    · simp [alookup, h]
    · simp [alookup, h, ih]

theorem flipNode_clock (b : BNode) : (flipNode b).lamport_clock = b.lamport_clock := by
  unfold flipNode
  split <;> rfl

theorem flip_clocks_eq (l : List (String × BNode)) :
    (l.map (fun p => (p.1, flipNode p.2))).map (fun p => p.2.lamport_clock)
      = l.map (fun p => p.2.lamport_clock) := by
  induction l with
  | nil => rfl
  | cons p rest ih => simp [flipNode_clock, ih]

/-- C8: when resynchronization runs — on `force_sync` or on server
recovery — every node whose status is ONLINE, P2P_ONLY or RECONNECTING
ends with its Lamport clock equal to `L_max + 1`, where `L_max` is the
maximum Lamport clock over all nodes beforehand (the code in fact sets
every node's clock, participating or not). -/
theorem C8_sync_clock_advance (st : ServerState) (hne : st.nodes ≠ []) :
    (∀ q nd, alookup (handle_force_sync st).nodes q = some nd →
        (nd.status = .online ∨ nd.status = .p2p_only ∨ nd.status = .reconnecting) →
        nd.lamport_clock
          = listMax (st.nodes.map (fun p => p.2.lamport_clock)) + 1) ∧
    (st.server_online = false →
      ∀ q nd, alookup (simulate_server_recovery st).nodes q = some nd →
        (nd.status = .online ∨ nd.status = .p2p_only ∨ nd.status = .reconnecting) →
        nd.lamport_clock
          = listMax (st.nodes.map (fun p => p.2.lamport_clock)) + 1) := by
  constructor
  · intro q nd h _
    unfold handle_force_sync synchronize_network at h
    simp only at h
    rw [alookup_map_snd] at h
    cases hl : alookup st.nodes q with
    | none => rw [hl] at h; exact absurd h (by simp)
    | some nd0 =>
      rw [hl] at h
      obtain rfl := Option.some.inj h
      rfl
  · intro hoff q nd h hstat
    unfold simulate_server_recovery at h
    rw [if_neg (by simp [hoff])] at h
    unfold synchronize_network at h
    simp only at h
    rw [alookup_map_snd] at h
    rw [alookup_map_snd] at h
    cases hl : alookup st.nodes q with
    | none => rw [hl] at h; exact absurd h (by simp)
    | some nd0 =>
      rw [hl] at h
      obtain rfl := Option.some.inj h
      show (listMax _) + 1 = _
      rw [flip_clocks_eq]

/-- Witness for C8: after `force_sync` on the two-node state with clocks 3
and 5, the participating `alpha_1` has clock `5 + 1 = 6`. -/
theorem C8_sync_clock_advance_witness :
    { id := "alpha_1", name := "Alpha Team Lead", rank := "Sergeant",
      unit := "Alpha Company", posx := 100, posy := 150,
      status := .p2p_only, lamport_clock := 6,
      message_queue := [] : BNode }.lamport_clock
      = listMax (demoSyncSt.nodes.map (fun p => p.2.lamport_clock)) + 1 :=
  (C8_sync_clock_advance demoSyncSt (by decide)).1 "alpha_1"
    { id := "alpha_1", name := "Alpha Team Lead", rank := "Sergeant",
      unit := "Alpha Company", posx := 100, posy := 150,
      status := .p2p_only, lamport_clock := 6, message_queue := [] }
    (by decide) (by decide)

/-! ## Theorems: route-path boundedness in the demo server (C7) -/

theorem alookup_mem_keys {α : Type} (ns : List (String × α)) (q : String) (v : α)
    (h : alookup ns q = some v) : q ∈ ns.map Prod.fst := by
  induction ns with
  | nil => simp [alookup] at h
  | cons p rest ih =>
    simp only [alookup] at h
    by_cases hp : p.1 = q
    · exact List.mem_cons.mpr (Or.inl hp.symm)
    · rw [if_neg hp] at h
      exact List.mem_cons.mpr (Or.inr (ih h))

/-- Everything `scanTargets` collects: route entries come from the scanned
node list and were unvisited; `visited` only grows; and freshness keeps the
route duplicate-free. -/
theorem scanTargets_inv (node : BNode) :
    ∀ (ts : List (String × BNode)) (visited nexts route : List String),
      (∀ x ∈ (scanTargets node ts visited nexts route).2.2,
          x ∈ route ∨ (x ∉ visited ∧ ∃ p ∈ ts, p.1 = x)) ∧
      (∀ x ∈ visited, x ∈ (scanTargets node ts visited nexts route).1) ∧
      (route.Nodup → (∀ x ∈ route, x ∈ visited) →
        ((scanTargets node ts visited nexts route).2.2.Nodup ∧
          ∀ x ∈ (scanTargets node ts visited nexts route).2.2,
            x ∈ (scanTargets node ts visited nexts route).1)) := by
  intro ts
  induction ts with
  | nil =>
    intro visited nexts route
    exact ⟨fun x hx => Or.inl hx, fun x hx => hx, fun hnd hsub => ⟨hnd, hsub⟩⟩
  | cons p rest ih =>
    intro visited nexts route
    obtain ⟨tid, tn⟩ := p
    unfold scanTargets
    by_cases h1 : tid ∈ visited ∨ tn.status = .offline
    · rw [if_pos h1]
      obtain ⟨ia, ib, ic⟩ := ih visited nexts route
      refine ⟨fun x hx => ?_, ib, ic⟩
      rcases ia x hx with hx' | ⟨hnv, q, hq, hq1⟩
      · exact Or.inl hx'
      · exact Or.inr ⟨hnv, q, List.mem_cons.mpr (Or.inr hq), hq1⟩
    · rw [if_neg h1]
      have htid : tid ∉ visited := fun hc => h1 (Or.inl hc)
      by_cases h2 : withinRange node.posx node.posy tn.posx tn.posy = true
      · rw [if_pos h2]
        obtain ⟨ia, ib, ic⟩ :=
          ih (visited ++ [tid]) (nexts ++ [tid]) (route ++ [tid])
        refine ⟨fun x hx => ?_, fun x hx => ib x (List.mem_append_left _ hx),
          fun hnd hsub => ?_⟩
        · rcases ia x hx with hx' | ⟨hnv, q, hq, hq1⟩
          · rcases List.mem_append.mp hx' with hr | ht
            · exact Or.inl hr
            · refine Or.inr ⟨?_, (tid, tn), List.mem_cons_self _ _, ?_⟩
              · rw [List.mem_singleton] at ht
                subst ht
                exact htid
              · rw [List.mem_singleton] at ht
                exact ht.symm
          · refine Or.inr ⟨fun hc => hnv (List.mem_append_left _ hc),
              q, List.mem_cons.mpr (Or.inr hq), hq1⟩
        · refine ic ?_ ?_
          · rw [List.nodup_append]
            exact ⟨hnd, List.nodup_singleton _,
              fun x hx hy => htid ((List.mem_singleton.mp hy) ▸ hsub x hx)⟩
          · intro x hx
            rcases List.mem_append.mp hx with hr | ht
            · exact List.mem_append_left _ (hsub x hr)
            · exact List.mem_append_right _ ht
      · rw [if_neg h2]
        obtain ⟨ia, ib, ic⟩ := ih visited nexts route
        refine ⟨fun x hx => ?_, ib, ic⟩
        rcases ia x hx with hx' | ⟨hnv, q, hq, hq1⟩
        · exact Or.inl hx'
        · exact Or.inr ⟨hnv, q, List.mem_cons.mpr (Or.inr hq), hq1⟩

theorem hopPass_cons_none (nodes : List (String × BNode)) (c : String)
    (cs visited nexts route : List String) (h : alookup nodes c = none) :
    hopPass nodes (c :: cs) visited nexts route
      = hopPass nodes cs visited nexts route := by
  conv_lhs => unfold hopPass
  rw [h]

theorem hopPass_cons_some (nodes : List (String × BNode)) (c : String)
    (cs visited nexts route : List String) (nd : BNode)
    (h : alookup nodes c = some nd) :
    hopPass nodes (c :: cs) visited nexts route
      = if nd.status = .offline then hopPass nodes cs visited nexts route
        else hopPass nodes cs (scanTargets nd nodes visited nexts route).1
          (scanTargets nd nodes visited nexts route).2.1
          (scanTargets nd nodes visited nexts route).2.2 := by
  conv_lhs => unfold hopPass
  rw [h]

/-- `hopPass` preserves the same facts, with provenance from the node
dict. -/
theorem hopPass_inv (nodes : List (String × BNode)) :
    ∀ (cs visited nexts route : List String),
      (∀ x ∈ (hopPass nodes cs visited nexts route).2.2,
          x ∈ route ∨ (x ∉ visited ∧ ∃ p ∈ nodes, p.1 = x)) ∧
      (∀ x ∈ visited, x ∈ (hopPass nodes cs visited nexts route).1) ∧
      (route.Nodup → (∀ x ∈ route, x ∈ visited) →
        ((hopPass nodes cs visited nexts route).2.2.Nodup ∧
          ∀ x ∈ (hopPass nodes cs visited nexts route).2.2,
            x ∈ (hopPass nodes cs visited nexts route).1)) := by
  intro cs
  induction cs with
  | nil =>
    intro visited nexts route
    exact ⟨fun x hx => Or.inl hx, fun x hx => hx, fun hnd hsub => ⟨hnd, hsub⟩⟩
  | cons c cs ih =>
    intro visited nexts route
    cases hc : alookup nodes c with
    | none =>
      rw [hopPass_cons_none nodes c cs visited nexts route hc]
      exact ih visited nexts route
    | some nd =>
      rw [hopPass_cons_some nodes c cs visited nexts route nd hc]
      by_cases hoff : nd.status = .offline
      · rw [if_pos hoff]
        exact ih visited nexts route
      · rw [if_neg hoff]
        obtain ⟨sa, sb, sc⟩ := scanTargets_inv nd nodes visited nexts route
        obtain ⟨ia, ib, ic⟩ := ih (scanTargets nd nodes visited nexts route).1
          (scanTargets nd nodes visited nexts route).2.1
          (scanTargets nd nodes visited nexts route).2.2
        refine ⟨fun x hx => ?_, fun x hx => ib x (sb x hx), fun hnd hsub => ?_⟩
        · rcases ia x hx with hx' | ⟨hnv, hprov⟩
          · rcases sa x hx' with hr | ⟨hnv', hprov'⟩
            · exact Or.inl hr
            · exact Or.inr ⟨hnv', hprov'⟩
          · exact Or.inr ⟨fun hcv => hnv (sb x hcv), hprov⟩
        · obtain ⟨snd, ssub⟩ := sc hnd hsub
          exact ic snd ssub

/-- `bfsLoop` keeps the route duplicate-free, and every route entry is an
unvisited-at-start key of the node dict. -/
theorem bfsLoop_inv (nodes : List (String × BNode)) :
    ∀ (fuel : Nat) (curs visited route : List String),
      route.Nodup → (∀ x ∈ route, x ∈ visited) →
      ((bfsLoop nodes fuel curs visited route).Nodup ∧
        ∀ x ∈ bfsLoop nodes fuel curs visited route,
          x ∈ route ∨ (x ∉ visited ∧ ∃ p ∈ nodes, p.1 = x)) := by
  intro fuel
  induction fuel with
  | zero =>
    intro curs visited route hnd hsub
    exact ⟨hnd, fun x hx => Or.inl hx⟩
  | succ f ih =>
    intro curs visited route hnd hsub
    unfold bfsLoop
    obtain ⟨ha, hb, hc⟩ := hopPass_inv nodes curs visited [] route
    obtain ⟨hpnd, hpsub⟩ := hc hnd hsub
    by_cases hempty : (hopPass nodes curs visited [] route).2.1 = []
    · rw [if_pos hempty]
      exact ⟨hpnd, ha⟩
    · rw [if_neg hempty]
      obtain ⟨ra, rb⟩ := ih (hopPass nodes curs visited [] route).2.1
        (hopPass nodes curs visited [] route).1
        (hopPass nodes curs visited [] route).2.2 hpnd hpsub
      refine ⟨ra, fun x hx => ?_⟩
      rcases rb x hx with hr | ⟨hnv, hprov⟩
      · exact ha x hr
      · exact Or.inr ⟨fun hcv => hnv (hb x hcv), hprov⟩

/-- The P2P route from a sender: duplicate-free, never revisiting the
sender, and drawn from the node dict's keys. -/
theorem routeP2P_spec (st : ServerState) (sender : String) :
    (routeP2P st sender).Nodup ∧
    ∀ x ∈ routeP2P st sender,
      x ≠ sender ∧ x ∈ st.nodes.map Prod.fst := by
  obtain ⟨ha, hb⟩ := bfsLoop_inv st.nodes 3 [sender] [sender] []
    List.nodup_nil (fun x hx => absurd hx (List.not_mem_nil x))
  refine ⟨ha, fun x hx => ?_⟩
  rcases hb x hx with hr | ⟨hnv, p, hp, hp1⟩
  · exact absurd hr (List.not_mem_nil x)
  · exact ⟨fun hc => hnv (hc ▸ List.mem_singleton_self sender),
      hp1 ▸ List.mem_map_of_mem Prod.fst hp⟩

/-- A duplicate-free list avoiding `s` and drawn from `ids` has fewer
elements than `ids`. -/
theorem nodup_avoiding_length (route ids : List String) (s : String)
    (hnd : route.Nodup) (hids : ids.Nodup) (hs : s ∈ ids)
    (hsub : ∀ x ∈ route, x ≠ s ∧ x ∈ ids) :
    route.length ≤ ids.length - 1 := by
  have h1 : route.toFinset ⊆ ids.toFinset.erase s := by
    intro x hx
    rw [List.mem_toFinset] at hx
    obtain ⟨hne, hin⟩ := hsub x hx
    exact Finset.mem_erase.mpr ⟨hne, List.mem_toFinset.mpr hin⟩
  have h2 : route.toFinset.card = route.length := List.toFinset_card_of_nodup hnd
  have h3 : ids.toFinset.card = ids.length := List.toFinset_card_of_nodup hids
  have h4 := Finset.card_le_card h1
  rw [Finset.card_erase_of_mem (List.mem_toFinset.mpr hs)] at h4
  omega

/-- The message a successful `handle_send_message` creates takes its route
from the centralized router or the P2P flood. -/
theorem handle_send_route (st : ServerState) (sender content mtype : String)
    (recips : List String) (msg_id sig : String) (now : Nat) (nd : BNode)
    (hl : alookup st.nodes sender = some nd) :
    ∃ msg, (handle_send_message st sender content mtype recips msg_id sig now).2
        = some msg ∧
      (msg.route_path = ["central_server"] ∨ msg.route_path = routeP2P st sender) := by
  unfold handle_send_message
  rw [hl]
  refine ⟨_, rfl, ?_⟩
  by_cases hc : st.server_online = true ∧ st.network_state = .centralized
  · left
    simp [hc]
  · right
    simp [hc]

/-- C7: every message the demo server's send handler creates — whose node
dict always has exactly the five demo ids — has a duplicate-free
`route_path` of length at most `max_hops + 1 = 4`. -/
theorem C7_route_path_bounds (st : ServerState)
    (hids : st.nodes.map Prod.fst = demoIds)
    (sender content mtype : String) (recips : List String)
    (msg_id sig : String) (now : Nat) (st' : ServerState) (msg : BMessage)
    (h : handle_send_message st sender content mtype recips msg_id sig now
      = (st', some msg)) :
    msg.route_path.Nodup ∧ msg.route_path.length ≤ 3 + 1 := by
  cases hl : alookup st.nodes sender with
  | none =>
    have : (handle_send_message st sender content mtype recips msg_id sig now).2
        = none := by
      unfold handle_send_message
      rw [hl]
    rw [h] at this
    exact absurd this (by simp)
  | some nd =>
    obtain ⟨msg', hm, hroute⟩ :=
      handle_send_route st sender content mtype recips msg_id sig now nd hl
    rw [h] at hm
    obtain rfl := Option.some.inj hm
    rcases hroute with hr | hr
    · rw [hr]
      exact ⟨by simp, by simp⟩
    · rw [hr]
      obtain ⟨hnd', hsub⟩ := routeP2P_spec st sender
      refine ⟨hnd', ?_⟩
      have hlen := nodup_avoiding_length (routeP2P st sender)
        (st.nodes.map Prod.fst) sender hnd' (by rw [hids]; decide)
        (alookup_mem_keys st.nodes sender nd hl) hsub
      rw [hids] at hlen
      simpa using hlen

/-- Witness for C7: a concrete P2P-mode send from `alpha_1` on the five
demo nodes. -/
theorem C7_route_path_bounds_witness :
    demoP2PMsg.route_path.Nodup ∧ demoP2PMsg.route_path.length ≤ 3 + 1 :=
  C7_route_path_bounds demoP2PSt (by decide) "alpha_1" "go" "chat" []
    "m2" "sig_1" 7
    (handle_send_message demoP2PSt "alpha_1" "go" "chat" [] "m2" "sig_1" 7).1
    demoP2PMsg (by decide)

/-- Witness for C3 at the concrete successful `add_message` run. -/
theorem C3_add_message_block_witness :
    jlookup demoAdded.2 "block_number"
        = some (.nat (LocalLedger.init "alpha_1").blocks.length) ∧
    jlookup demoAdded.2 "previous_hash"
        = some (.str (LocalLedger.init "alpha_1").last_block_hash) ∧
    jlookup demoAdded.2 "timestamp" = some (.nat 1000) ∧
    jlookup demoAdded.2 "message_data" = some (.obj (msgToDict demoMsg)) ∧
    jlookup demoAdded.2 "merkle_root" = none ∧
    (∃ bh nonce, mine_block (preBlock (LocalLedger.init "alpha_1") demoMsg 1000) 2 1
        = some (bh, nonce) ∧
      demoAdded.1.last_block_hash = bh ∧
      jlookup demoAdded.2 "block_hash" = some (.str bh) ∧
      jlookup demoAdded.2 "nonce" = some (.nat nonce)) ∧
    demoAdded.1.blocks = (LocalLedger.init "alpha_1").blocks ++ [demoAdded.2] :=
  C3_add_message_block (LocalLedger.init "alpha_1") demoMsg 1000 1
    demoAdded.1 demoAdded.2 (by decide)

end SainyaSecure
